import Mathlib

/-!
Verification of the batch-relayer and stable-pool price-impact core of a
decentralized-exchange client SDK.

The development shallowly embeds the TypeScript sources:
  * `relayer.module.ts` (class `Relayer`): chained-reference encoding,
    exit-pool-and-batch-swap composition, nested-pool joins and unwrap calls;
  * the stable-pool price-impact concern (`StablePoolPriceImpact`);
  * the address helper `isSameAddress` built on the ethers `getAddress`
    checksum normalizer.

TypeScript `bigint` and ethers `BigNumber` values are arbitrary-precision
signed integers whose division truncates toward zero; they are embedded as
`Int` with `Int.tdiv`.  Javascript strings are embedded as `String`, with
`Char.toLower` standing in for `toLowerCase` (all relevant strings are ASCII
hex addresses and decimal amounts).  Fallible code returns `Except`.
-/

/-- `WeiPerEther` from ethers constants: the 18-decimals fixed point unit. -/
def WeiPerEther : Int := 10 ^ 18

/-- `ONE` from `solidityMaths`: the 18-decimals fixed point unit (as bigint). -/
def ONE : Int := 10 ^ 18

/-- `BZERO` from `solidityMaths`: the bigint zero. -/
def BZERO : Int := 0

/-- Javascript `String.prototype.toLowerCase`, restricted to ASCII, on a
character list. -/
def lowerChars (l : List Char) : List Char := l.map Char.toLower

/-- Javascript `String.prototype.toLowerCase`, restricted to ASCII. -/
def strToLower (s : String) : String := String.mk (lowerChars s.data)

/-! ### Chained-reference encoder (`Relayer.toChainedReference`) -/

/-- `Relayer.CHAINED_REFERENCE_PREFIX = 'ba10'` (name suffixed with `Str`
to satisfy lexical constraints of this development). -/
def CHAINED_REFERENCE_PREFIX_Str : String := "ba10"

/-- The padded hex literal built inside `toChainedReference`:
`0x` + `ba10` + 60 zero characters (64 hex characters in total). -/
def paddedPrefixHex : String :=
  "0x" ++ CHAINED_REFERENCE_PREFIX_Str
    ++ String.mk (List.replicate (64 - CHAINED_REFERENCE_PREFIX_Str.length) '0')

/-- Numeric value of one hexadecimal character (as used by
`BigNumber.from` on a `0x` literal). -/
def hexCharToNat (c : Char) : Nat :=
  if '0' ≤ c ∧ c ≤ '9' then c.toNat - '0'.toNat
  else if 'a' ≤ c ∧ c ≤ 'f' then c.toNat - 'a'.toNat + 10
  else if 'A' ≤ c ∧ c ≤ 'F' then c.toNat - 'A'.toNat + 10
  else 0

/-- Big-endian hex digit accumulation. -/
def hexDigitsToNat (l : List Char) : Nat :=
  l.foldl (fun acc c => 16 * acc + hexCharToNat c) 0

/-- `BigNumber.from` on a `0x`-prefixed hex string literal. -/
def bigNumberFromHex (s : String) : Nat := hexDigitsToNat (s.data.drop 2)

/-- `Relayer.toChainedReference(key)`: the parsed padded prefix plus the key. -/
def toChainedReference (key : Nat) : Nat := bigNumberFromHex paddedPrefixHex + key

/-! ### Exit-pool-and-batch-swap building blocks (`Relayer.exitPoolAndBatchSwap`) -/

/-- One leg of a batch swap (`BatchSwapStep`); the `amount` is a decimal
string, possibly a stringified chained reference. -/
structure BatchSwapStep where
  poolId : String
  assetInIndex : Nat
  assetOutIndex : Nat
  amount : String
  userData : String
deriving Repr, DecidableEq

/-- An output reference declared to the relayer: index into the flat asset
list and chained-reference key. -/
structure OutputReference where
  index : Nat
  key : Nat
deriving Repr, DecidableEq

/-- `minAmountsOut` computation of `exitPoolAndBatchSwap`: each expected
amount is scaled by `WeiPerEther - slippage` and divided by `WeiPerEther`
(`BigNumber` division truncates toward zero). -/
def exitMinAmountsOut (expectedAmountsOut : List Int) (slippage : Int) : List Int :=
  let slippageAmountNegative := WeiPerEther - slippage
  expectedAmountsOut.map (fun amt => Int.tdiv (amt * slippageAmountNegative) WeiPerEther)

/-- The `outputReferences` of the exit call: one reference per exit token,
keyed by `toChainedReference` of its position. -/
def exitOutputReferences (exitTokens : List String) : List OutputReference :=
  (List.range exitTokens.length).map (fun index => ⟨index, toChainedReference index⟩)

/-- The per-swap rewrite of `exitPoolAndBatchSwap`: look up the input asset of
the swap, search it in the lowercased exit-token list, and on a hit replace
the literal amount with the matching output reference key. -/
def updateSwapAmount (exitTokensLower : List String) (refs : List OutputReference)
    (assets : List String) (swap : BatchSwapStep) : BatchSwapStep :=
  match assets.get? swap.assetInIndex with
  | none => swap
  | some token =>
    match exitTokensLower.findIdx? (fun t => t == token) with
    | none => swap
    | some index => { swap with amount := toString (refs.getD index ⟨0, 0⟩).key }

/-- The swap-amount rewriting loop of `exitPoolAndBatchSwap` (lines 185-192):
`exitTokens` are lowercased once, output references come from the exit call. -/
def updateSwapAmounts (exitTokensRaw : List String) (assets : List String)
    (swaps : List BatchSwapStep) : List BatchSwapStep :=
  swaps.map
    (updateSwapAmount (exitTokensRaw.map strToLower)
      (exitOutputReferences exitTokensRaw) assets)

/-- The reported `outputs.amountsOut` of `exitPoolAndBatchSwap`
(lines 291-296): positive slippage re-applied to the return amounts. -/
def exitReportedAmountsOut (returnAmounts : List Int) (slippage : Int) : List Int :=
  let slippageAmountPositive := WeiPerEther + slippage
  returnAmounts.map (fun amt => Int.tdiv (amt * slippageAmountPositive) WeiPerEther)

/-! ### Nested-pool join (`Relayer.joinPool`, amounts-in computation) -/

/-- A caller-supplied input token of `joinPool`: address and human-unit
amount string. -/
structure TokenAmount where
  address : String
  amount : String
deriving Repr, DecidableEq

/-- The part of the router query result (`QueryWithSorOutput`) that the
amounts-in computation of `joinPool` reads. -/
structure QueryLite where
  assets : List String
  returnAmounts : List String
deriving Repr, DecidableEq

/-- A per-token join input amount as produced by `joinPool`: either a literal
string amount or a chained-reference `BigNumber`. -/
inductive JoinAmount where
  | lit (s : String)
  | chainedRef (v : Nat)
deriving Repr, DecidableEq

/-- One iteration of the `pool.tokensList.map` of `joinPool` (lines 389-418).
`getTokenAmountScaled` abstracts the decimal scaling helper (it reads the
ambient pool list, which is irrelevant to tokens that are absent from the
caller inputs).  Javascript `queryResult?.assets.findIndex(...) || -1`
collapses both `undefined` and a found index of `0` to `-1`, while a
not-found `-1` stays `-1`; `token?.amount || '0'` treats the empty string as
falsy. -/
def joinPoolAmountIn (getTokenAmountScaled : String → String → String)
    (tokens : List TokenAmount) (queryResult : Option QueryLite)
    (tokenAddress : String) : JoinAmount :=
  match tokens.find? (fun t => strToLower t.address == strToLower tokenAddress) with
  | some token =>
    .lit (getTokenAmountScaled tokenAddress (if token.amount = "" then "0" else token.amount))
  | none =>
    let index : Int :=
      match queryResult with
      | none => -1
      | some q =>
        match q.assets.findIdx? (fun asset => strToLower asset == strToLower tokenAddress) with
        | none => -1
        | some k => if k = 0 then -1 else (k : Int)
    if index = -1 then .lit "0"
    else
      match queryResult with
      | none => .lit "0"
      | some q =>
        if q.returnAmounts.get? index.toNat = some "0" then .lit "0"
        else .chainedRef (toChainedReference index.toNat)

/-- The full `amountsIn` list of the weighted-pool branch of `joinPool`. -/
def joinPoolAmountsIn (getTokenAmountScaled : String → String → String)
    (tokensList : List String) (tokens : List TokenAmount)
    (queryResult : Option QueryLite) : List JoinAmount :=
  tokensList.map (joinPoolAmountIn getTokenAmountScaled tokens queryResult)

/-! ### Pool environment and the unwrap-call composer (`Relayer.encodeUnwrapCalls`) -/

/-- The fields of a subgraph pool record read by the embedded relayer
methods. -/
structure SubgraphPoolBase where
  id : String
  address : String
  poolType : String
  tokensList : List String
  wrappedIndex : Option Nat
  mainIndex : Option Nat
  factory : Option String
deriving Repr, DecidableEq

/-- Funding info of a swap (`FundManagement`). -/
structure FundManagement where
  sender : String
  recipient : String
  fromInternalBalance : Bool
  toInternalBalance : Bool
deriving Repr, DecidableEq

/-- Modelled from the spec: the wrapping-protocol tag
(`BalancerLinearPoolType`, declared in `@/types`, which is not under `src/`).
The spec describes a string-keyed protocol-tag dispatch with one canonical
default protocol; the dispatch in `encodeUnwrapCalls` has exactly the
branches `aave`, `yearn` and `boo`, so the tag is modelled as that closed
enumeration. -/
inductive BalancerLinearPoolType where
  | aave
  | yearn
  | boo
deriving Repr, DecidableEq

/-- The `tokensList[wrappedIndex] === wrappedToken` test of
`getRequiredLinearPoolForWrappedToken` (`typeof wrappedIndex === 'number'`
guards the access). -/
def isLinearPoolForWrapped (pool : SubgraphPoolBase) (wrappedToken : String) : Bool :=
  match pool.wrappedIndex with
  | some wi => pool.tokensList.get? wi == some wrappedToken
  | none => false

/-- `Relayer.getRequiredLinearPoolForWrappedToken`: first pool whose wrapped
token is `wrappedToken`, else a not-found error. -/
def getRequiredLinearPoolForWrappedToken (pools : List SubgraphPoolBase)
    (wrappedToken : String) : Except String SubgraphPoolBase :=
  match pools.find? (fun pool => isLinearPoolForWrapped pool wrappedToken) with
  | some pool => .ok pool
  | none => .error ("No linear pool found for wrapped token: " ++ wrappedToken)

/-- `Relayer.getLinearPoolType`: look the pool factory up in the configured
`linearFactories` map, defaulting to `aave`. -/
def getLinearPoolType (linearFactories : List (String × BalancerLinearPoolType))
    (pool : SubgraphPoolBase) : BalancerLinearPoolType :=
  match pool.factory with
  | some f => (linearFactories.lookup f).getD .aave
  | none => .aave

/-- The structured content of one encoded unwrap call (the byte encoding
itself is external to this spec): one variant per wrapping service. -/
inductive UnwrapCall where
  | aaveUnwrap (staticToken sender recipient : String) (amount : Nat) (toUnderlying : Bool)
  | yearnUnwrap (vaultToken sender recipient : String) (amount : Nat)
  | booLeave (sender recipient : String) (amount : Nat)
deriving Repr, DecidableEq

/-- The protocol dispatch of `encodeUnwrapCalls`: every branch pushes exactly
one call whose input amount is the chained-reference key. -/
def mkUnwrapCall (linearPoolType : BalancerLinearPoolType) (wrappedToken : String)
    (funds : FundManagement) (key : Nat) : UnwrapCall :=
  match linearPoolType with
  | .aave => .aaveUnwrap wrappedToken funds.recipient funds.sender key true
  | .yearn => .yearnUnwrap wrappedToken funds.recipient funds.sender key
  | .boo => .booLeave funds.recipient funds.sender key

/-- The input amount carried by an unwrap call. -/
def unwrapCallAmount : UnwrapCall → Nat
  | .aaveUnwrap _ _ _ amount _ => amount
  | .yearnUnwrap _ _ _ amount => amount
  | .booLeave _ _ amount => amount

/-- The position of `wrappedToken` in the asset list
(`assets.findIndex(token => token.toLowerCase() === wrappedToken.toLowerCase())`). -/
def assetIndexOf (assets : List String) (wrappedToken : String) : Option Nat :=
  assets.findIdx? (fun token => strToLower token == strToLower wrappedToken)

/-- The `wrappedTokens.forEach` loop of `encodeUnwrapCalls`, as a recursion
carrying the running token index `i`.  Each iteration first resolves the
linear pool (throwing if missing), then skips tokens absent from the asset
list, and otherwise pushes one output reference and one unwrap call keyed by
`toChainedReference i`. -/
def encodeUnwrapCallsGo (pools : List SubgraphPoolBase)
    (linearFactories : List (String × BalancerLinearPoolType))
    (assets : List String) (funds : FundManagement) :
    Nat → List String → Except String (List UnwrapCall × List OutputReference)
  | _, [] => .ok ([], [])
  | i, wrappedToken :: rest =>
    match getRequiredLinearPoolForWrappedToken pools wrappedToken with
    | .error e => .error e
    | .ok linearPool =>
      let linearPoolType := getLinearPoolType linearFactories linearPool
      match assetIndexOf assets wrappedToken with
      | none => encodeUnwrapCallsGo pools linearFactories assets funds (i + 1) rest
      | some index =>
        let key := toChainedReference i
        match encodeUnwrapCallsGo pools linearFactories assets funds (i + 1) rest with
        | .error e => .error e
        | .ok (unwrapCalls, outputReferences) =>
          .ok (mkUnwrapCall linearPoolType wrappedToken funds key :: unwrapCalls,
               ⟨index, key⟩ :: outputReferences)

/-- `Relayer.encodeUnwrapCalls`. -/
def encodeUnwrapCalls (pools : List SubgraphPoolBase)
    (linearFactories : List (String × BalancerLinearPoolType))
    (wrappedTokens : List String) (assets : List String) (funds : FundManagement) :
    Except String (List UnwrapCall × List OutputReference) :=
  encodeUnwrapCallsGo pools linearFactories assets funds 0 wrappedTokens

/-! ### Stable-pool price impact (`StablePoolPriceImpact`) -/

/-- The error codes thrown by the embedded math layer
(`BalancerErrorCode`). -/
inductive BalancerErrorCode where
  | INPUT_LENGTH_MISMATCH
  | ZERO_DIVISION
deriving Repr, DecidableEq

/-- Modelled from the spec: `_upscale` (from `@/lib/utils/solidityMaths`,
not under `src/`) normalizes a token amount to the 18-decimals fixed-point
base via the per-token scaling factor, i.e. fixed-point multiplication by
the scaling factor with truncating bigint division. -/
def upscaleAmt (amount scalingFactor : Int) : Int :=
  Int.tdiv (amount * scalingFactor) ONE

/-- `StablePoolPriceImpact.bptZeroPriceImpact`, after `parsePoolInfo`
(external to `src/`) has produced the upscaled pool view.  `bptSpotPrice`
(from `@/lib/utils/stableMathHelpers`, not under `src/`) is taken as an
arbitrary function of the amplification parameter, the upscaled balances,
the total shares and the token index.  The loop accumulates
`price * upscaledAmount / ONE`; a length mismatch between the token amounts
and the balances-without-BPT throws `INPUT_LENGTH_MISMATCH`. -/
def bptZeroPriceImpact (bptSpotPrice : Nat → List Int → Int → Nat → Int)
    (ampWithPrecision : Nat) (upScaledBalancesWithoutBpt : List Int)
    (totalSharesEvm : Int) (scalingFactorsWithoutBpt : List Int)
    (tokenAmounts : List Int) : Except BalancerErrorCode Int :=
  if tokenAmounts.length ≠ upScaledBalancesWithoutBpt.length then
    .error .INPUT_LENGTH_MISMATCH
  else
    .ok ((List.range upScaledBalancesWithoutBpt.length).foldl
      (fun acc i =>
        let price := bptSpotPrice ampWithPrecision upScaledBalancesWithoutBpt
          totalSharesEvm i
        let amountUpscaled := upscaleAmt (tokenAmounts.getD i 0)
          (scalingFactorsWithoutBpt.getD i 0)
        acc + Int.tdiv (price * amountUpscaled) ONE)
      BZERO)

/-- Modelled from the spec: `calcPriceImpact` (from
`@/modules/pricing/priceImpact`, not under `src/`).  Per the spec, a join
reports `1 - actual/baseline`, an exit reports `1 - baseline/actual`, and a
zero baseline fails with a division-by-zero error; the result is an
18-decimals fixed-point fraction computed with truncating bigint
division. -/
def calcPriceImpact (bptAmount bptZeroPI : Int) (isJoin : Bool) :
    Except BalancerErrorCode Int :=
  if bptZeroPI = 0 then .error .ZERO_DIVISION
  else if isJoin then .ok (ONE - Int.tdiv (bptAmount * ONE) bptZeroPI)
  else .ok (ONE - Int.tdiv (bptZeroPI * ONE) bptAmount)

/-- `StablePoolPriceImpact.calcPriceImpact`: compute the zero-price-impact
baseline for the desired token amounts, then the signed impact fraction
against the actual BPT amount. -/
def stablePoolCalcPriceImpact (bptSpotPrice : Nat → List Int → Int → Nat → Int)
    (ampWithPrecision : Nat) (upScaledBalancesWithoutBpt : List Int)
    (totalSharesEvm : Int) (scalingFactorsWithoutBpt : List Int)
    (tokenAmounts : List Int) (bptAmount : Int) (isJoin : Bool) :
    Except BalancerErrorCode Int :=
  match bptZeroPriceImpact bptSpotPrice ampWithPrecision upScaledBalancesWithoutBpt
      totalSharesEvm scalingFactorsWithoutBpt tokenAmounts with
  | .error e => .error e
  | .ok baseline => calcPriceImpact bptAmount baseline isJoin

/-! ### Address normalization (`isSameAddress` over the ethers `getAddress`)

`isSameAddress` compares the checksum-normalized forms of its arguments.
`getAddress` (ethers `@ethersproject/address`) validates the address shape,
lowercases it, recases each hex digit according to the keccak-256 hash of the
lowercased body (EIP-55), and rejects a mixed-case input that does not equal
its checksummed form.  The keccak-256 permutation is embedded below on `Nat`
lanes masked to 64 bits. -/

/-- 64-bit mask. -/
def mask64 : Nat := 2 ^ 64 - 1

/-- 64-bit left rotation. -/
def rotl64 (x n : Nat) : Nat :=
  ((x <<< n) ||| (x >>> (64 - n))) &&& mask64

/-- One step of the degree-8 LFSR `x^8 + x^6 + x^5 + x^4 + 1` generating the
keccak round-constant bits. -/
def keccakLfsrStep (r : Nat) : Nat := ((r <<< 1) ^^^ ((r >>> 7) * 0x71)) &&& 0xff

/-- The LFSR state after `t` steps (initial state `0x01`). -/
def keccakLfsr : Nat → Nat
  | 0 => 1
  | t + 1 => keccakLfsrStep (keccakLfsr t)

/-- The round-constant bit `rc(t)`. -/
def keccakRcBit (t : Nat) : Nat := keccakLfsr t &&& 1

/-- The `i`-th keccak round constant: bit `rc(7i + j)` placed at lane
position `2^j - 1` for `j = 0..6`. -/
def keccakRoundConstant (i : Nat) : Nat :=
  (List.range 7).foldl (fun acc j => acc ||| (keccakRcBit (7 * i + j) <<< (2 ^ j - 1))) 0

/-- The 24 keccak round constants. -/
def keccakRC : List Nat := (List.range 24).map keccakRoundConstant

/-- Keccak rotation offsets, indexed by `5 * y + x`: walk the ρ/π lane cycle
from `(1, 0)`, assigning the triangular-number rotation
`(t + 1)(t + 2) / 2 mod 64` at step `t`. -/
def rhoOffsets : List Nat :=
  ((List.range 24).foldl
    (fun st t =>
      ((st.1.2, (2 * st.1.1 + 3 * st.1.2) % 5),
        st.2.set (5 * st.1.2 + st.1.1) (((t + 1) * (t + 2) / 2) % 64)))
    ((1, 0), List.replicate 25 0)).2

/-- One keccak-f[1600] round on a 25-lane state (lane `(x, y)` at index
`5 * y + x`). -/
def keccakRound (state : List Nat) (rc : Nat) : List Nat :=
  let A := fun (x y : Nat) => state.getD (5 * y + x) 0
  let C := fun (x : Nat) => A x 0 ^^^ A x 1 ^^^ A x 2 ^^^ A x 3 ^^^ A x 4
  let D := fun (x : Nat) => C ((x + 4) % 5) ^^^ rotl64 (C ((x + 1) % 5)) 1
  let A1 := fun (x y : Nat) => A x y ^^^ D x
  let B := fun (x y : Nat) =>
    let sx := (x + 3 * y) % 5
    let sy := x
    rotl64 (A1 sx sy) (rhoOffsets.getD (5 * sy + sx) 0)
  (List.range 25).map (fun i =>
    let x := i % 5
    let y := i / 5
    let v := B x y ^^^ ((B ((x + 1) % 5) y ^^^ mask64) &&& B ((x + 2) % 5) y)
    if i = 0 then v ^^^ rc else v)

/-- The keccak-f[1600] permutation: 24 rounds. -/
def keccakF (state : List Nat) : List Nat :=
  keccakRC.foldl keccakRound state

/-- A 64-bit lane from up to eight little-endian bytes. -/
def bytesToLane (bs : List Nat) : Nat :=
  bs.foldr (fun b acc => 256 * acc + b) 0

/-- The eight little-endian bytes of a 64-bit lane. -/
def laneToBytes (lane : Nat) : List Nat :=
  (List.range 8).map (fun k => (lane >>> (8 * k)) &&& 0xff)

/-- Keccak-256 (original Keccak padding `0x01`, as used by Ethereum) of a
byte list shorter than the 136-byte rate — sufficient for the 40-byte
address bodies hashed by `getAddress`. -/
def keccak256 (msg : List Nat) : List Nat :=
  let r := 136
  let padded :=
    if msg.length = r - 1 then msg ++ [0x81]
    else msg ++ [0x01] ++ List.replicate (r - msg.length - 2) 0 ++ [0x80]
  let state0 := (List.range 25).map (fun i => bytesToLane ((padded.drop (8 * i)).take 8))
  let state := keccakF state0
  ((state.take 4).map laneToBytes).flatten

/-- One hex character of a lowercase address body, recased by a checksum
nibble: uppercased when the nibble is at least 8. -/
def checksumChar (nibble : Nat) (c : Char) : Char :=
  if 8 ≤ nibble then c.toUpper else c

/-- The checksum nibble for body position `i` out of the hashed bytes:
high nibble of byte `i / 2` for even `i`, low nibble for odd `i`. -/
def checksumNibble (hashed : List Nat) (i : Nat) : Nat :=
  if i % 2 = 0 then (hashed.getD (i / 2) 0) / 16 else (hashed.getD (i / 2) 0) % 16

/-- `getChecksumAddress` of ethers: lowercase the 40-character body, hash its
ASCII bytes with keccak-256, and uppercase each hex digit whose checksum
nibble is at least 8 (the per-index loop is rendered as a map over the
enumerated body). -/
def getChecksumAddress (full : List Char) : List Char :=
  let body := lowerChars (full.drop 2)
  let hashed := keccak256 (body.map Char.toNat)
  '0' :: 'x' :: body.enum.map (fun p => checksumChar (checksumNibble hashed p.1) p.2)

/-- The regex character class `[0-9a-fA-F]`, built from its three ranges. -/
def hexClassChars : List Char :=
  (List.range 10).map (fun i => Char.ofNat ('0'.toNat + i)) ++
    (List.range 6).map (fun i => Char.ofNat ('a'.toNat + i)) ++
    (List.range 6).map (fun i => Char.ofNat ('A'.toNat + i))

/-- A hexadecimal digit character. -/
def isHexDigitChar (c : Char) : Bool :=
  hexClassChars.contains c

/-- The regex body test `[0-9a-fA-F]{40}`. -/
def is40Hex (l : List Char) : Bool :=
  l.length == 40 && l.all isHexDigitChar

/-- The mixed-case test of ethers, `([A-F].*[a-f])|([a-f].*[A-F])`:
the address contains both an uppercase and a lowercase hex letter. -/
def isMixedCase (l : List Char) : Bool :=
  l.any (fun c => 'A' ≤ c && c ≤ 'F') && l.any (fun c => 'a' ≤ c && c ≤ 'f')

/-- ethers `getAddress`: accept `^(0x)?[0-9a-fA-F]{40}$` (the ICAP branch is
out of scope here and collapses into the invalid-address error), prepend
`0x` when missing, checksum the address, and reject a mixed-case input that
differs from its checksummed form. -/
def getAddress (address : String) : Except String String :=
  let cs := address.data
  if is40Hex (cs.drop 2) && cs.take 2 == ['0', 'x'] || is40Hex cs then
    let full := if cs.take 2 == ['0', 'x'] then cs else '0' :: 'x' :: cs
    let result := getChecksumAddress full
    if isMixedCase full && result != full then .error "bad address checksum"
    else .ok (String.mk result)
  else
    .error "invalid address"

/-- `isSameAddress` from the address utilities: strict equality of the
checksum-normalized addresses. -/
def isSameAddress (address1 address2 : String) : Except String Bool :=
  match getAddress address1, getAddress address2 with
  | .ok a1, .ok a2 => .ok (a1 == a2)
  | .error e, _ => .error e
  | _, .error e => .error e

/-- The `^0x[0-9a-fA-F]{40}$` shape of the claim's well-formed 20-byte hex
addresses. -/
def wellFormedAddress (s : String) : Bool :=
  s.data.take 2 == ['0', 'x'] && is40Hex (s.data.drop 2)

/-! ## Helper lemmas -/

/-- The parsed padded prefix evaluates to the 256-bit value with hex
digits `ba10` followed by 60 zeros. -/
theorem bigNumberFromHex_paddedPrefixHex :
    bigNumberFromHex paddedPrefixHex = 0xba10 * 16 ^ 60 := by decide

/-- `toChainedReference` as prefix-value plus key. -/
theorem toChainedReference_eq (key : Nat) :
    toChainedReference key = 0xba10 * 16 ^ 60 + key := by
  unfold toChainedReference
  rw [bigNumberFromHex_paddedPrefixHex]

/-- Chained references of distinct indices are distinct. -/
theorem toChainedReference_inj {i j : Nat}
    (h : toChainedReference i = toChainedReference j) : i = j := by
  rw [toChainedReference_eq, toChainedReference_eq] at h
  exact Nat.add_left_cancel h

/-! ## C2: chained-reference wire format -/

/-- C2: for every index in the supported range (below `16 ^ 60`),
`toChainedReference i` is the 256-bit integer whose 64-hex-digit
representation is the prefix `ba10` followed by zero padding followed by `i`
in big-endian, i.e. `0xba10 * 16 ^ 60 + i`; the map is injective, the
prefix digits survive intact, and the low-order digits recover `i`. -/
theorem toChainedReference_wire_format (i j : Nat) :
    toChainedReference i = 0xba10 * 16 ^ 60 + i ∧
    (i ≠ j → toChainedReference i ≠ toChainedReference j) ∧
    (i < 16 ^ 60 →
      toChainedReference i / 16 ^ 60 = 0xba10 ∧
      toChainedReference i % 16 ^ 60 = i) := by
  refine ⟨toChainedReference_eq i, fun hne heq => hne (toChainedReference_inj heq), fun hi => ?_⟩
  rw [toChainedReference_eq, Nat.add_comm]
  have hpos : 0 < 16 ^ 60 := Nat.pos_pow_of_pos 60 (by norm_num)
  constructor
  · rw [Nat.add_mul_div_right _ _ hpos, Nat.div_eq_of_lt hi, Nat.zero_add]
  · rw [Nat.add_mul_mod_self_right, Nat.mod_eq_of_lt hi]

/-- Witness for C2 at the concrete indices 1 and 2. -/
theorem toChainedReference_wire_format_witness :
    (1 : Nat) ≠ 2 ∧ (1 : Nat) < 16 ^ 60 ∧
    toChainedReference 1 ≠ toChainedReference 2 ∧
    toChainedReference 1 % 16 ^ 60 = 1 :=
  ⟨by decide, by norm_num,
   (toChainedReference_wire_format 1 2).2.1 (by decide),
   ((toChainedReference_wire_format 1 2).2.2 (by norm_num)).2⟩

/-! ## C3: exit minimum amounts out (negative slippage, floor semantics) -/

/-- C3: every entry of `minAmountsOut` is
`floor(expected * (10^18 - slippage) / 10^18)` (for the non-negative amounts
and sub-unit slippage of the domain, the code's truncating division is the
floor); in particular expected amounts `[100, 200]` with 1% slippage give
`[99, 198]`. -/
theorem exitMinAmountsOut_floor :
    (∀ (expectedAmountsOut : List Int) (slippage : Int),
      (∀ a ∈ expectedAmountsOut, 0 ≤ a) → slippage ≤ WeiPerEther →
      exitMinAmountsOut expectedAmountsOut slippage =
        expectedAmountsOut.map
          (fun a => Int.fdiv (a * (WeiPerEther - slippage)) WeiPerEther)) ∧
    exitMinAmountsOut [100, 200] (10 ^ 16) = [99, 198] := by
  constructor
  · intro expectedAmountsOut slippage hnn hs
    unfold exitMinAmountsOut
    apply List.map_congr_left
    intro a ha
    have h1 : (0 : Int) ≤ a * (WeiPerEther - slippage) :=
      mul_nonneg (hnn a ha) (sub_nonneg.mpr hs)
    have h2 : (0 : Int) ≤ WeiPerEther := by norm_num [WeiPerEther]
    rw [Int.fdiv_eq_tdiv h1 h2]
  · decide

/-- Witness for C3 at the concrete inputs of the claim. -/
theorem exitMinAmountsOut_floor_witness :
    exitMinAmountsOut [100, 200] (10 ^ 16) =
      ([100, 200] : List Int).map
        (fun a => Int.fdiv (a * (WeiPerEther - 10 ^ 16)) WeiPerEther) :=
  exitMinAmountsOut_floor.1 [100, 200] (10 ^ 16) (by decide) (by decide)

/-! ## C4: reported amounts out (positive slippage re-applied) -/

/-- C4: every entry of the reported `outputs.amountsOut` is
`floor(returnAmount * (10^18 + slippage) / 10^18)`: the expected amount
obtained by re-applying the positive slippage factor to the return amounts
of the router query result. -/
theorem exitReportedAmountsOut_floor
    (returnAmounts : List Int) (slippage : Int)
    (hnn : ∀ a ∈ returnAmounts, 0 ≤ a) (hs : 0 ≤ slippage) :
    exitReportedAmountsOut returnAmounts slippage =
      returnAmounts.map
        (fun a => Int.fdiv (a * (WeiPerEther + slippage)) WeiPerEther) := by
  unfold exitReportedAmountsOut
  apply List.map_congr_left
  intro a ha
  have h1 : (0 : Int) ≤ a * (WeiPerEther + slippage) := by
    apply mul_nonneg (hnn a ha)
    have : (0 : Int) ≤ WeiPerEther := by norm_num [WeiPerEther]
    omega
  have h2 : (0 : Int) ≤ WeiPerEther := by norm_num [WeiPerEther]
  rw [Int.fdiv_eq_tdiv h1 h2]

/-- Witness for C4: return amounts `[100, 200]` with 1% slippage report
`[101, 202]`. -/
theorem exitReportedAmountsOut_floor_witness :
    exitReportedAmountsOut [100, 200] (10 ^ 16) =
      ([100, 200] : List Int).map
        (fun a => Int.fdiv (a * (WeiPerEther + 10 ^ 16)) WeiPerEther) ∧
    exitReportedAmountsOut [100, 200] (10 ^ 16) = [101, 202] :=
  ⟨exitReportedAmountsOut_floor [100, 200] (10 ^ 16) (by decide) (by decide),
   by decide⟩

/-! ## C1: nested-pool join, zero-output short-circuit -/

/-- C1 (code bug): for a Weighted pool whose nested BPT sits at position 0 of
the router query's asset list, `joinPool` passes the literal string `"0"`
even though the router-estimated return amount is non-zero (here `"9"` and
`"5"`), because `queryResult?.assets.findIndex(...) || -1` treats the found
index `0` as falsy.  The same pool token at position 1 receives the chained
reference, as the claim describes.  The caller-supplied input-token list is
empty, so neither pool token is a caller input. -/
theorem joinPool_nested_bpt_index_zero_bug :
    joinPoolAmountsIn (fun _ amount => amount) ["0xbpt"] []
        (some ⟨["0xbpt"], ["5"]⟩) = [.lit "0"] ∧
    joinPoolAmountsIn (fun _ amount => amount) ["0xtokena", "0xbpt"] []
        (some ⟨["0xtokena", "0xbpt"], ["9", "5"]⟩) =
      [.lit "0", .chainedRef (toChainedReference 1)] := by
  constructor
  · rfl
  · rfl

/-! ## C5: swap legs consume the exit's chained references -/

/-- C5: in the swap-amount rewrite of `exitPoolAndBatchSwap`, a swap leg
whose input asset is found (after lowercasing the exit tokens) at position
`idx` of the exit-token list gets its literal amount replaced by the exit
step's chained reference for that position, `toChainedReference idx`; a leg
whose input asset is not an exit token — or whose asset index is out of
range — keeps its literal amount. -/
theorem exit_swap_amount_rewrite (exitTokensRaw assets : List String)
    (swaps : List BatchSwapStep) (swap : BatchSwapStep) (token : String) (idx : Nat) :
    updateSwapAmounts exitTokensRaw assets swaps =
      swaps.map
        (updateSwapAmount (exitTokensRaw.map strToLower)
          (exitOutputReferences exitTokensRaw) assets) ∧
    (assets.get? swap.assetInIndex = some token →
      (exitTokensRaw.map strToLower).findIdx? (fun t => t == token) = some idx →
      updateSwapAmount (exitTokensRaw.map strToLower)
          (exitOutputReferences exitTokensRaw) assets swap =
        { swap with amount := toString (toChainedReference idx) }) ∧
    (assets.get? swap.assetInIndex = some token →
      (exitTokensRaw.map strToLower).findIdx? (fun t => t == token) = none →
      updateSwapAmount (exitTokensRaw.map strToLower)
          (exitOutputReferences exitTokensRaw) assets swap = swap) ∧
    (assets.get? swap.assetInIndex = none →
      updateSwapAmount (exitTokensRaw.map strToLower)
          (exitOutputReferences exitTokensRaw) assets swap = swap) := by
  refine ⟨rfl, ?_, ?_, ?_⟩
  · intro htok hfind
    have hlt : idx < exitTokensRaw.length := by
      have := List.findIdx?_eq_some_iff_findIdx_eq.mp hfind
      simpa using this.1
    have hgetD : (exitOutputReferences exitTokensRaw).getD idx ⟨0, 0⟩ =
        ⟨idx, toChainedReference idx⟩ := by
      unfold exitOutputReferences
      rw [List.getD_eq_getElem?_getD, List.getElem?_map, List.getElem?_range hlt]
      rfl
    unfold updateSwapAmount
    rw [htok]
    dsimp only
    rw [hfind]
    dsimp only
    rw [hgetD]
  · intro htok hfind
    unfold updateSwapAmount
    rw [htok]
    dsimp only
    rw [hfind]
  · intro htok
    unfold updateSwapAmount
    rw [htok]

/-- Witness for C5: a single exit token `0xa`, asset list `[0xA]`, and one
swap leg reading asset 0. -/
theorem exit_swap_amount_rewrite_witness :
    updateSwapAmount (["0xA"].map strToLower) (exitOutputReferences ["0xA"]) ["0xa"]
        ⟨"p", 0, 1, "77", ""⟩ =
      ⟨"p", 0, 1, toString (toChainedReference 0), ""⟩ :=
  (exit_swap_amount_rewrite ["0xA"] ["0xa"] [] ⟨"p", 0, 1, "77", ""⟩ "0xa" 0).2.1
    (by rfl) (by rfl)

/-! ## C8: zero-impact baseline of the all-zero amount vector -/

/-- Folding an always-zero increment leaves the accumulator unchanged. -/
theorem foldl_add_zero {g : Nat → Int} (h : ∀ i, g i = 0) :
    ∀ (l : List Nat) (acc : Int), l.foldl (fun a i => a + g i) acc = acc := by
  intro l
  induction l with
  | nil => intro acc; rfl
  | cons x xs ih =>
    intro acc
    simp only [List.foldl_cons, h x, add_zero]
    exact ih acc

/-- C8: for any spot-price function and any valid stable-pool view, the
all-zero token-amount vector (of the length of the balances excluding the
self-held BPT) yields a zero baseline, and a vector of any other length
fails with `INPUT_LENGTH_MISMATCH`. -/
theorem bptZeroPriceImpact_spec
    (bptSpotPrice : Nat → List Int → Int → Nat → Int) (ampWithPrecision : Nat)
    (upScaledBalancesWithoutBpt : List Int) (totalSharesEvm : Int)
    (scalingFactorsWithoutBpt : List Int) :
    bptZeroPriceImpact bptSpotPrice ampWithPrecision upScaledBalancesWithoutBpt
        totalSharesEvm scalingFactorsWithoutBpt
        (List.replicate upScaledBalancesWithoutBpt.length 0) = .ok 0 ∧
    (∀ tokenAmounts : List Int,
      tokenAmounts.length ≠ upScaledBalancesWithoutBpt.length →
      bptZeroPriceImpact bptSpotPrice ampWithPrecision upScaledBalancesWithoutBpt
          totalSharesEvm scalingFactorsWithoutBpt tokenAmounts =
        .error .INPUT_LENGTH_MISMATCH) := by
  constructor
  · unfold bptZeroPriceImpact
    rw [if_neg (by simp)]
    have hterm : ∀ i : Nat,
        Int.tdiv
          (bptSpotPrice ampWithPrecision upScaledBalancesWithoutBpt totalSharesEvm i *
            upscaleAmt
              ((List.replicate upScaledBalancesWithoutBpt.length (0 : Int)).getD i 0)
              (scalingFactorsWithoutBpt.getD i 0)) ONE = 0 := by
      intro i
      have hz : (List.replicate upScaledBalancesWithoutBpt.length (0 : Int)).getD i 0 = 0 := by
        rw [List.getD_eq_getElem?_getD, List.getElem?_replicate]
        by_cases h : i < upScaledBalancesWithoutBpt.length <;> simp [h]
      rw [hz]
      unfold upscaleAmt
      norm_num
    simp only [BZERO]
    rw [foldl_add_zero hterm]
  · intro tokenAmounts hne
    unfold bptZeroPriceImpact
    rw [if_pos hne]

/-- Witness for C8 with a concrete two-token pool view and a concrete
constant spot-price function. -/
theorem bptZeroPriceImpact_spec_witness :
    bptZeroPriceImpact (fun _ _ _ _ => 7) 1 [5, 6] 2 [3, 4] (List.replicate 2 0) =
      .ok 0 ∧
    bptZeroPriceImpact (fun _ _ _ _ => 7) 1 [5, 6] 2 [3, 4] [1] =
      .error .INPUT_LENGTH_MISMATCH :=
  ⟨(bptZeroPriceImpact_spec (fun _ _ _ _ => 7) 1 [5, 6] 2 [3, 4]).1,
   (bptZeroPriceImpact_spec (fun _ _ _ _ => 7) 1 [5, 6] 2 [3, 4]).2 [1] (by decide)⟩

/-! ## C6: price-impact formula and zero-baseline error -/

/-- Fixed-point divide-and-subtract approximates the exact fraction: if
`v = ONE - tdiv (x * ONE) y` for non-negative `x` and positive `y`, then `v`
is within one fixed-point unit of `(1 - x / y) * ONE`. -/
theorem fixed_point_one_sub_div_bound (x y : Int) (hx : 0 ≤ x) (hy : 0 < y) :
    |((ONE - Int.tdiv (x * ONE) y : Int) : ℚ) - (1 - (x : ℚ) / (y : ℚ)) * ((ONE : Int) : ℚ)| < 1 := by
  have hONE : (0 : Int) ≤ ONE := by norm_num [ONE]
  have hxo : (0 : Int) ≤ x * ONE := mul_nonneg hx hONE
  rw [Int.tdiv_eq_ediv hxo (le_of_lt hy)]
  have hmod := Int.ediv_add_emod (x * ONE) y
  have hr0 : 0 ≤ (x * ONE) % y := Int.emod_nonneg _ (ne_of_gt hy)
  have hrlt : (x * ONE) % y < y := Int.emod_lt_of_pos _ hy
  set q : Int := (x * ONE) / y with hq
  set r : Int := (x * ONE) % y with hr
  have hyQ : ((y : Int) : ℚ) ≠ 0 := by
    exact_mod_cast ne_of_gt hy
  have hcast : ((x : ℚ)) * ((ONE : Int) : ℚ) = (y : ℚ) * (q : ℚ) + (r : ℚ) := by
    exact_mod_cast congrArg (fun z : Int => (z : ℚ)) hmod.symm
  have hval : ((ONE - q : Int) : ℚ) - (1 - (x : ℚ) / (y : ℚ)) * ((ONE : Int) : ℚ) =
      (r : ℚ) / (y : ℚ) := by
    push_cast
    field_simp
    push_cast at hcast
    linarith [hcast]
  rw [hval, abs_div]
  rw [abs_of_nonneg (by exact_mod_cast hr0), abs_of_pos (by exact_mod_cast hy)]
  rw [div_lt_one (by exact_mod_cast hy)]
  exact_mod_cast hrlt

/-- C6: `StablePoolPriceImpact.calcPriceImpact` composes the zero-impact
baseline with the impact formula: when the baseline is zero it fails with the
division-by-zero error; otherwise a join returns the fixed-point rendering of
`1 - bptAmount / baseline` and an exit the fixed-point rendering of
`1 - baseline / bptAmount`, each within one fixed-point unit of the exact
fraction. -/
theorem stablePoolCalcPriceImpact_spec
    (bptSpotPrice : Nat → List Int → Int → Nat → Int) (ampWithPrecision : Nat)
    (upScaledBalancesWithoutBpt : List Int) (totalSharesEvm : Int)
    (scalingFactorsWithoutBpt : List Int) (tokenAmounts : List Int)
    (bptAmount baseline : Int) (isJoin : Bool)
    (hbase : bptZeroPriceImpact bptSpotPrice ampWithPrecision
        upScaledBalancesWithoutBpt totalSharesEvm scalingFactorsWithoutBpt
        tokenAmounts = .ok baseline) :
    (baseline = 0 →
      stablePoolCalcPriceImpact bptSpotPrice ampWithPrecision
          upScaledBalancesWithoutBpt totalSharesEvm scalingFactorsWithoutBpt
          tokenAmounts bptAmount isJoin = .error .ZERO_DIVISION) ∧
    (0 ≤ bptAmount → 0 < baseline →
      ∃ v : Int,
        stablePoolCalcPriceImpact bptSpotPrice ampWithPrecision
            upScaledBalancesWithoutBpt totalSharesEvm scalingFactorsWithoutBpt
            tokenAmounts bptAmount true = .ok v ∧
        |((v : Int) : ℚ) - (1 - (bptAmount : ℚ) / (baseline : ℚ)) * ((ONE : Int) : ℚ)| < 1) ∧
    (0 < bptAmount → 0 < baseline →
      ∃ v : Int,
        stablePoolCalcPriceImpact bptSpotPrice ampWithPrecision
            upScaledBalancesWithoutBpt totalSharesEvm scalingFactorsWithoutBpt
            tokenAmounts bptAmount false = .ok v ∧
        |((v : Int) : ℚ) - (1 - (baseline : ℚ) / (bptAmount : ℚ)) * ((ONE : Int) : ℚ)| < 1) := by
  unfold stablePoolCalcPriceImpact
  rw [hbase]
  dsimp only
  refine ⟨?_, ?_, ?_⟩
  · intro h0
    unfold calcPriceImpact
    rw [if_pos h0]
  · intro ha hb
    refine ⟨ONE - Int.tdiv (bptAmount * ONE) baseline, ?_, ?_⟩
    · unfold calcPriceImpact
      rw [if_neg (ne_of_gt hb), if_pos rfl]
    · exact fixed_point_one_sub_div_bound bptAmount baseline ha hb
  · intro ha hb
    refine ⟨ONE - Int.tdiv (baseline * ONE) bptAmount, ?_, ?_⟩
    · unfold calcPriceImpact
      rw [if_neg (ne_of_gt hb)]
      rfl
    · exact fixed_point_one_sub_div_bound baseline bptAmount (le_of_lt hb) ha

/-- Witness for C6: a one-token pool with constant spot price `10^18`; the
zero amount vector gives a zero baseline (error case), and desired amounts
`[2 * 10^18]` give baseline `2 * 10^18` for the join and exit cases. -/
theorem stablePoolCalcPriceImpact_spec_witness :
    stablePoolCalcPriceImpact (fun _ _ _ _ => 10 ^ 18) 1 [10 ^ 18] 1 [10 ^ 18]
        [0] 5 true = .error .ZERO_DIVISION ∧
    (∃ v : Int,
      stablePoolCalcPriceImpact (fun _ _ _ _ => 10 ^ 18) 1 [10 ^ 18] 1 [10 ^ 18]
          [2 * 10 ^ 18] (10 ^ 18) true = .ok v ∧
      |((v : Int) : ℚ) -
          (1 - ((10 ^ 18 : Int) : ℚ) / ((2 * 10 ^ 18 : Int) : ℚ)) * ((ONE : Int) : ℚ)| < 1) ∧
    (∃ v : Int,
      stablePoolCalcPriceImpact (fun _ _ _ _ => 10 ^ 18) 1 [10 ^ 18] 1 [10 ^ 18]
          [2 * 10 ^ 18] (10 ^ 18) false = .ok v ∧
      |((v : Int) : ℚ) -
          (1 - ((2 * 10 ^ 18 : Int) : ℚ) / ((10 ^ 18 : Int) : ℚ)) * ((ONE : Int) : ℚ)| < 1) :=
  ⟨(stablePoolCalcPriceImpact_spec (fun _ _ _ _ => 10 ^ 18) 1 [10 ^ 18] 1 [10 ^ 18]
      [0] 5 0 true (by rfl)).1 rfl,
   (stablePoolCalcPriceImpact_spec (fun _ _ _ _ => 10 ^ 18) 1 [10 ^ 18] 1 [10 ^ 18]
      [2 * 10 ^ 18] (10 ^ 18) (2 * 10 ^ 18) true (by rfl)).2.1
     (by norm_num) (by norm_num),
   (stablePoolCalcPriceImpact_spec (fun _ _ _ _ => 10 ^ 18) 1 [10 ^ 18] 1 [10 ^ 18]
      [2 * 10 ^ 18] (10 ^ 18) (2 * 10 ^ 18) false (by rfl)).2.2
     (by norm_num) (by norm_num)⟩

/-! ## Unwrap-call composer: characterization (for C7 and C9) -/

/-- The contribution of one enumerated wrapped token to the unwrap
composition: `none` when its linear pool is missing or the token is absent
from the asset list, otherwise the unwrap call paired with its output
reference, both keyed by the chained reference of the token's running
index. -/
def unwrapEntry (pools : List SubgraphPoolBase)
    (linearFactories : List (String × BalancerLinearPoolType))
    (assets : List String) (funds : FundManagement)
    (p : Nat × String) : Option (UnwrapCall × OutputReference) :=
  match pools.find? (fun pool => isLinearPoolForWrapped pool p.2) with
  | none => none
  | some linearPool =>
    match assetIndexOf assets p.2 with
    | none => none
    | some index =>
      some (mkUnwrapCall (getLinearPoolType linearFactories linearPool) p.2 funds
              (toChainedReference p.1),
            ⟨index, toChainedReference p.1⟩)

/-- Every variant of the protocol dispatch carries the chained-reference key
as its input amount. -/
theorem mkUnwrapCall_amount (t : BalancerLinearPoolType) (w : String)
    (funds : FundManagement) (key : Nat) :
    unwrapCallAmount (mkUnwrapCall t w funds key) = key := by
  cases t <;> rfl

/-- When every wrapped token has a linear pool, the unwrap loop succeeds and
produces exactly the calls and references of the enumerated entries. -/
theorem encodeUnwrapCallsGo_ok (pools : List SubgraphPoolBase)
    (linearFactories : List (String × BalancerLinearPoolType))
    (assets : List String) (funds : FundManagement) :
    ∀ (ws : List String) (i : Nat),
      (∀ w ∈ ws, (pools.find? (fun pool => isLinearPoolForWrapped pool w)).isSome) →
      encodeUnwrapCallsGo pools linearFactories assets funds i ws =
        .ok (((List.enumFrom i ws).filterMap
                (unwrapEntry pools linearFactories assets funds)).map Prod.fst,
             ((List.enumFrom i ws).filterMap
                (unwrapEntry pools linearFactories assets funds)).map Prod.snd) := by
  intro ws
  induction ws with
  | nil => intro i H; rfl
  | cons w rest ih =>
    intro i H
    obtain ⟨pool, hpool⟩ :=
      Option.isSome_iff_exists.mp (H w (List.mem_cons_self w rest))
    have hrest : ∀ w2 ∈ rest,
        (pools.find? (fun pool => isLinearPoolForWrapped pool w2)).isSome :=
      fun w2 hw2 => H w2 (List.mem_cons_of_mem w hw2)
    rw [List.enumFrom_cons]
    unfold encodeUnwrapCallsGo getRequiredLinearPoolForWrappedToken
    rw [hpool]
    dsimp only
    cases hidx : assetIndexOf assets w with
    | none =>
      have hentry : unwrapEntry pools linearFactories assets funds (i, w) = none := by
        unfold unwrapEntry
        rw [hpool]
        dsimp only
        rw [hidx]
      rw [List.filterMap_cons_none hentry, ih (i + 1) hrest]
    | some index =>
      have hentry : unwrapEntry pools linearFactories assets funds (i, w) =
          some (mkUnwrapCall (getLinearPoolType linearFactories pool) w funds
                  (toChainedReference i),
                ⟨index, toChainedReference i⟩) := by
        unfold unwrapEntry
        rw [hpool]
        dsimp only
        rw [hidx]
      rw [List.filterMap_cons_some hentry, ih (i + 1) hrest]
      rfl

/-- Every produced entry corresponds to a wrapped token present in the asset
list: its reference index is the token's asset position, its key is the
chained reference of the token's position in the wrapped-token list, and the
call's input amount equals that key. -/
theorem mem_unwrapEntries (pools : List SubgraphPoolBase)
    (linearFactories : List (String × BalancerLinearPoolType))
    (assets : List String) (funds : FundManagement) :
    ∀ (ws : List String) (i : Nat) (e : UnwrapCall × OutputReference),
      e ∈ (List.enumFrom i ws).filterMap (unwrapEntry pools linearFactories assets funds) →
      ∃ m w, ws.get? m = some w ∧
        assetIndexOf assets w = some e.2.index ∧
        e.2.key = toChainedReference (i + m) ∧
        unwrapCallAmount e.1 = e.2.key := by
  intro ws
  induction ws with
  | nil =>
    intro i e he
    simp [List.enumFrom] at he
  | cons w rest ih =>
    intro i e he
    rw [List.enumFrom_cons] at he
    cases hentry : unwrapEntry pools linearFactories assets funds (i, w) with
    | none =>
      rw [List.filterMap_cons_none hentry] at he
      obtain ⟨m, w2, h1, h2, h3, h4⟩ := ih (i + 1) e he
      exact ⟨m + 1, w2, by simpa using h1, h2, by rw [h3]; ring_nf, h4⟩
    | some e0 =>
      rw [List.filterMap_cons_some hentry] at he
      rcases List.mem_cons.mp he with rfl | htail
      · unfold unwrapEntry at hentry
        cases hpool : pools.find? (fun pool => isLinearPoolForWrapped pool w) with
        | none => rw [hpool] at hentry; simp at hentry
        | some pool =>
          rw [hpool] at hentry
          dsimp only at hentry
          cases hidx : assetIndexOf assets w with
          | none => rw [hidx] at hentry; simp at hentry
          | some index =>
            rw [hidx] at hentry
            injection hentry with hentry
            refine ⟨0, w, rfl, ?_, ?_, ?_⟩
            · rw [← hentry, hidx]
            · rw [← hentry, Nat.add_zero]
            · rw [← hentry]
              exact mkUnwrapCall_amount _ _ _ _
      · obtain ⟨m, w2, h1, h2, h3, h4⟩ := ih (i + 1) e htail
        exact ⟨m + 1, w2, by simpa using h1, h2, by rw [h3]; ring_nf, h4⟩

/-- The number of produced entries is the number of wrapped tokens present
in the asset list (when every wrapped token has a linear pool). -/
theorem unwrapEntries_length (pools : List SubgraphPoolBase)
    (linearFactories : List (String × BalancerLinearPoolType))
    (assets : List String) (funds : FundManagement) :
    ∀ (ws : List String) (i : Nat),
      (∀ w ∈ ws, (pools.find? (fun pool => isLinearPoolForWrapped pool w)).isSome) →
      ((List.enumFrom i ws).filterMap
          (unwrapEntry pools linearFactories assets funds)).length =
        (ws.filter (fun w => (assetIndexOf assets w).isSome)).length := by
  intro ws
  induction ws with
  | nil => intro i H; rfl
  | cons w rest ih =>
    intro i H
    obtain ⟨pool, hpool⟩ :=
      Option.isSome_iff_exists.mp (H w (List.mem_cons_self w rest))
    have hrest : ∀ w2 ∈ rest,
        (pools.find? (fun pool => isLinearPoolForWrapped pool w2)).isSome :=
      fun w2 hw2 => H w2 (List.mem_cons_of_mem w hw2)
    rw [List.enumFrom_cons]
    cases hidx : assetIndexOf assets w with
    | none =>
      have hentry : unwrapEntry pools linearFactories assets funds (i, w) = none := by
        unfold unwrapEntry
        rw [hpool]
        dsimp only
        rw [hidx]
      rw [List.filterMap_cons_none hentry, ih (i + 1) hrest,
        List.filter_cons_of_neg (by simp [hidx])]
    | some index =>
      have hentry : unwrapEntry pools linearFactories assets funds (i, w) =
          some (mkUnwrapCall (getLinearPoolType linearFactories pool) w funds
                  (toChainedReference i),
                ⟨index, toChainedReference i⟩) := by
        unfold unwrapEntry
        rw [hpool]
        dsimp only
        rw [hidx]
      rw [List.filterMap_cons_some hentry,
        List.filter_cons_of_pos (by simp [hidx]), List.length_cons,
        List.length_cons, ih (i + 1) hrest]

/-- Computed form of `unwrapEntry` when the pool lookup and the asset search
both succeed. -/
theorem unwrapEntry_eq_some (pools : List SubgraphPoolBase)
    (linearFactories : List (String × BalancerLinearPoolType))
    (assets : List String) (funds : FundManagement)
    (n : Nat) (w : String) (pool : SubgraphPoolBase) (p : Nat)
    (hpool : pools.find? (fun pool => isLinearPoolForWrapped pool w) = some pool)
    (hidx : assetIndexOf assets w = some p) :
    unwrapEntry pools linearFactories assets funds (n, w) =
      some (mkUnwrapCall (getLinearPoolType linearFactories pool) w funds
              (toChainedReference n),
            ⟨p, toChainedReference n⟩) := by
  unfold unwrapEntry
  rw [hpool]
  dsimp only
  rw [hidx]

/-- Any produced entry is keyed by the chained reference of its running
index. -/
theorem unwrapEntry_some_key (pools : List SubgraphPoolBase)
    (linearFactories : List (String × BalancerLinearPoolType))
    (assets : List String) (funds : FundManagement)
    (q : Nat × String) (e : UnwrapCall × OutputReference)
    (h : unwrapEntry pools linearFactories assets funds q = some e) :
    e.2.key = toChainedReference q.1 := by
  unfold unwrapEntry at h
  cases hpool : pools.find? (fun pool => isLinearPoolForWrapped pool q.2) with
  | none => rw [hpool] at h; simp at h
  | some pool =>
    rw [hpool] at h
    dsimp only at h
    cases hidx : assetIndexOf assets q.2 with
    | none => rw [hidx] at h; simp at h
    | some index =>
      rw [hidx] at h
      injection h with h
      rw [← h]

/-- Among the produced entries, exactly one is keyed by the chained
reference of a given wrapped-token position whose token is present in the
asset list: the entry of that very token. -/
theorem unwrapEntries_key_filter (pools : List SubgraphPoolBase)
    (linearFactories : List (String × BalancerLinearPoolType))
    (assets : List String) (funds : FundManagement) :
    ∀ (ws : List String) (i j : Nat) (w : String) (p : Nat),
      ws.get? j = some w →
      assetIndexOf assets w = some p →
      (∀ w2 ∈ ws, (pools.find? (fun pool => isLinearPoolForWrapped pool w2)).isSome) →
      ((List.enumFrom i ws).filterMap
          (unwrapEntry pools linearFactories assets funds)).filter
          (fun e => e.2.key == toChainedReference (i + j)) =
        (unwrapEntry pools linearFactories assets funds (i + j, w)).toList := by
  intro ws
  induction ws with
  | nil => intro i j w p h1; simp at h1
  | cons w0 rest ih =>
    intro i j w p h1 h2 H
    obtain ⟨pool0, hpool0⟩ :=
      Option.isSome_iff_exists.mp (H w0 (List.mem_cons_self w0 rest))
    have hrest : ∀ w2 ∈ rest,
        (pools.find? (fun pool => isLinearPoolForWrapped pool w2)).isSome :=
      fun w2 hw2 => H w2 (List.mem_cons_of_mem w0 hw2)
    have htail_ne : ∀ e ∈ (List.enumFrom (i + 1) rest).filterMap
        (unwrapEntry pools linearFactories assets funds),
        ¬(e.2.key == toChainedReference i) = true := by
      intro e he hbeq
      obtain ⟨m, w2, g1, g2, g3, g4⟩ :=
        mem_unwrapEntries pools linearFactories assets funds rest (i + 1) e he
      rw [g3] at hbeq
      have := toChainedReference_inj (beq_iff_eq.mp hbeq)
      omega
    rw [List.enumFrom_cons]
    cases j with
    | zero =>
      have hw : w0 = w := by
        rw [show (w0 :: rest).get? 0 = some w0 from rfl] at h1
        exact Option.some_inj.mp h1
      subst hw
      rw [Nat.add_zero]
      rw [List.filterMap_cons_some
        (unwrapEntry_eq_some pools linearFactories assets funds i w0 pool0 p hpool0 h2)]
      rw [List.filter_cons_of_pos (by simp)]
      rw [List.filter_eq_nil_iff.mpr htail_ne]
      rw [unwrapEntry_eq_some pools linearFactories assets funds i w0 pool0 p hpool0 h2]
      rfl
    | succ m =>
      have h1m : rest.get? m = some w := h1
      have hshift : i + (m + 1) = (i + 1) + m := by ring
      cases hentry : unwrapEntry pools linearFactories assets funds (i, w0) with
      | none =>
        rw [List.filterMap_cons_none hentry, hshift]
        exact ih (i + 1) m w p h1m h2 hrest
      | some e0 =>
        have hkey0 : e0.2.key = toChainedReference i :=
          unwrapEntry_some_key pools linearFactories assets funds (i, w0) e0 hentry
        rw [List.filterMap_cons_some hentry]
        rw [List.filter_cons_of_neg (by
          simp only [hkey0, beq_iff_eq]
          intro hc
          have := toChainedReference_inj hc
          omega)]
        rw [hshift]
        exact ih (i + 1) m w p h1m h2 hrest

/-! ## C7: unwrap composer skips absent wrapped tokens -/

/-- Counterexample for C7 as stated: with an ambient pool list holding no
linear pool for `0xw`, the call fails with a not-found error even though
`0xw` is absent from the (empty) asset list — the pool lookup precedes the
presence check. -/
theorem encodeUnwrapCalls_absent_token_can_fail :
    encodeUnwrapCalls [] [] ["0xw"] [] ⟨"0xsender", "0xrecipient", true, false⟩ =
      .error "No linear pool found for wrapped token: 0xw" := rfl

/-- C7 (amended): provided every wrapped token has a linear pool in the
ambient pool list, `encodeUnwrapCalls` succeeds — also when some wrapped
tokens are absent from the asset list — and emits exactly one unwrap call
and one output reference per wrapped token that is present in the asset
list, none for the absent ones. -/
theorem encodeUnwrapCalls_skips_absent (pools : List SubgraphPoolBase)
    (linearFactories : List (String × BalancerLinearPoolType))
    (wrappedTokens assets : List String) (funds : FundManagement)
    (H : ∀ w ∈ wrappedTokens,
      (pools.find? (fun pool => isLinearPoolForWrapped pool w)).isSome) :
    ∃ unwrapCalls outputReferences,
      encodeUnwrapCalls pools linearFactories wrappedTokens assets funds =
        .ok (unwrapCalls, outputReferences) ∧
      unwrapCalls.length = outputReferences.length ∧
      outputReferences.length =
        (wrappedTokens.filter (fun w => (assetIndexOf assets w).isSome)).length ∧
      ∀ r ∈ outputReferences, ∃ m w, wrappedTokens.get? m = some w ∧
        assetIndexOf assets w = some r.index ∧ r.key = toChainedReference m := by
  refine ⟨_, _, encodeUnwrapCallsGo_ok pools linearFactories assets funds
    wrappedTokens 0 H, by simp, ?_, ?_⟩
  · rw [List.length_map]
    exact unwrapEntries_length pools linearFactories assets funds wrappedTokens 0 H
  · intro r hr
    obtain ⟨e, he, hsnd⟩ := List.mem_map.mp hr
    obtain ⟨m, w, g1, g2, g3, g4⟩ :=
      mem_unwrapEntries pools linearFactories assets funds wrappedTokens 0 e he
    exact ⟨m, w, g1, by rw [← hsnd]; exact g2, by rw [← hsnd, g3, Nat.zero_add]⟩

/-- Witness for C7: one linear pool per wrapped token; `0xw` is present in
the asset list (case-insensitively), `0xabsent` is not. -/
theorem encodeUnwrapCalls_skips_absent_witness :
    ∃ unwrapCalls outputReferences,
      encodeUnwrapCalls
          [⟨"id1", "0xlp1", "Linear", ["0xmain1", "0xw"], some 1, some 0, some "0xfac"⟩,
           ⟨"id2", "0xlp2", "Linear", ["0xmain2", "0xabsent"], some 1, some 0, none⟩]
          [] ["0xw", "0xabsent"] ["0xW"] ⟨"0xsender", "0xrecipient", true, false⟩ =
        .ok (unwrapCalls, outputReferences) ∧
      unwrapCalls.length = outputReferences.length ∧
      outputReferences.length =
        ((["0xw", "0xabsent"] : List String).filter
          (fun w => (assetIndexOf ["0xW"] w).isSome)).length ∧
      ∀ r ∈ outputReferences, ∃ m w,
        (["0xw", "0xabsent"] : List String).get? m = some w ∧
        assetIndexOf ["0xW"] w = some r.index ∧ r.key = toChainedReference m :=
  encodeUnwrapCalls_skips_absent
    [⟨"id1", "0xlp1", "Linear", ["0xmain1", "0xw"], some 1, some 0, some "0xfac"⟩,
     ⟨"id2", "0xlp2", "Linear", ["0xmain2", "0xabsent"], some 1, some 0, none⟩]
    [] ["0xw", "0xabsent"] ["0xW"] ⟨"0xsender", "0xrecipient", true, false⟩
    (by decide)

/-! ## C9: unwrap calls and output references correspond element-wise -/

/-- C9: when every wrapped token has a linear pool, the unwrap composer
returns call and reference lists of equal length which correspond
element-wise (the call at position `k` carries exactly the key of the
reference at position `k`), and for every wrapped token at position `j`
present in the asset list at position `p` exactly one output reference
`{index p, key toChainedReference j}` and exactly one unwrap call with
input amount `toChainedReference j` are emitted. -/
theorem encodeUnwrapCalls_refs_correspond (pools : List SubgraphPoolBase)
    (linearFactories : List (String × BalancerLinearPoolType))
    (wrappedTokens assets : List String) (funds : FundManagement)
    (H : ∀ w ∈ wrappedTokens,
      (pools.find? (fun pool => isLinearPoolForWrapped pool w)).isSome) :
    ∃ unwrapCalls outputReferences,
      encodeUnwrapCalls pools linearFactories wrappedTokens assets funds =
        .ok (unwrapCalls, outputReferences) ∧
      unwrapCalls.length = outputReferences.length ∧
      (∀ k : Nat, (unwrapCalls.get? k).map unwrapCallAmount =
        (outputReferences.get? k).map OutputReference.key) ∧
      ∀ j w p, wrappedTokens.get? j = some w → assetIndexOf assets w = some p →
        outputReferences.filter (fun r => r.key == toChainedReference j) =
          [⟨p, toChainedReference j⟩] ∧
        (unwrapCalls.filter
          (fun c => unwrapCallAmount c == toChainedReference j)).length = 1 := by
  have hamount : ∀ e ∈ (List.enumFrom 0 wrappedTokens).filterMap
      (unwrapEntry pools linearFactories assets funds),
      unwrapCallAmount e.1 = e.2.key := by
    intro e he
    obtain ⟨m, w, g1, g2, g3, g4⟩ :=
      mem_unwrapEntries pools linearFactories assets funds wrappedTokens 0 e he
    exact g4
  refine ⟨_, _, encodeUnwrapCallsGo_ok pools linearFactories assets funds
    wrappedTokens 0 H, by simp, ?_, ?_⟩
  · intro k
    rw [List.get?_map, List.get?_map]
    cases hk : ((List.enumFrom 0 wrappedTokens).filterMap
        (unwrapEntry pools linearFactories assets funds)).get? k with
    | none => rfl
    | some e =>
      have he := List.get?_mem hk
      simp [hamount e he]
  · intro j w p hj hp
    obtain ⟨pool, hpool⟩ :=
      Option.isSome_iff_exists.mp (H w (List.get?_mem hj))
    have hfilter := unwrapEntries_key_filter pools linearFactories assets funds
      wrappedTokens 0 j w p hj hp H
    rw [Nat.zero_add] at hfilter
    rw [unwrapEntry_eq_some pools linearFactories assets funds j w pool p hpool hp]
      at hfilter
    have hcong : List.filter
        (fun e : UnwrapCall × OutputReference => unwrapCallAmount e.1 == toChainedReference j)
        ((List.enumFrom 0 wrappedTokens).filterMap
          (unwrapEntry pools linearFactories assets funds)) =
        List.filter (fun e => e.2.key == toChainedReference j)
        ((List.enumFrom 0 wrappedTokens).filterMap
          (unwrapEntry pools linearFactories assets funds)) :=
      List.filter_congr (fun e he => by rw [hamount e he])
    constructor
    · rw [List.filter_map]
      show List.map Prod.snd
          (List.filter (fun e => e.2.key == toChainedReference j)
            ((List.enumFrom 0 wrappedTokens).filterMap
              (unwrapEntry pools linearFactories assets funds))) = _
      rw [hfilter]
      rfl
    · rw [List.filter_map]
      show (List.map Prod.fst
          (List.filter
            (fun e : UnwrapCall × OutputReference =>
              unwrapCallAmount e.1 == toChainedReference j)
            ((List.enumFrom 0 wrappedTokens).filterMap
              (unwrapEntry pools linearFactories assets funds)))).length = 1
      rw [hcong, hfilter]
      rfl

/-- Witness for C9: two linear pools whose wrapped tokens are both present
in the asset list. -/
theorem encodeUnwrapCalls_refs_correspond_witness :
    ∃ unwrapCalls outputReferences,
      encodeUnwrapCalls
          [⟨"idA", "0xlpa", "Linear", ["0xmaina", "0xwa"], some 1, some 0, none⟩,
           ⟨"idB", "0xlpb", "Linear", ["0xmainb", "0xwb"], some 1, some 0, none⟩]
          [] ["0xwa", "0xwb"] ["0xother", "0xwb", "0xwa"]
          ⟨"0xs", "0xr", false, true⟩ =
        .ok (unwrapCalls, outputReferences) ∧
      unwrapCalls.length = outputReferences.length ∧
      (∀ k : Nat, (unwrapCalls.get? k).map unwrapCallAmount =
        (outputReferences.get? k).map OutputReference.key) ∧
      ∀ j w p, (["0xwa", "0xwb"] : List String).get? j = some w →
        assetIndexOf ["0xother", "0xwb", "0xwa"] w = some p →
        outputReferences.filter (fun r => r.key == toChainedReference j) =
          [⟨p, toChainedReference j⟩] ∧
        (unwrapCalls.filter
          (fun c => unwrapCallAmount c == toChainedReference j)).length = 1 :=
  encodeUnwrapCalls_refs_correspond
    [⟨"idA", "0xlpa", "Linear", ["0xmaina", "0xwa"], some 1, some 0, none⟩,
     ⟨"idB", "0xlpb", "Linear", ["0xmainb", "0xwb"], some 1, some 0, none⟩]
    [] ["0xwa", "0xwb"] ["0xother", "0xwb", "0xwa"] ⟨"0xs", "0xr", false, true⟩
    (by decide)

/-! ## C10: case-insensitivity of `isSameAddress` -/

/-- Case facts about the 22 characters of the hex class: lowering is
idempotent, lowering undoes the checksum uppercasing, lowered hex digits are
hex digits, and lowered hex digits are never uppercase hex letters. -/
theorem hexChar_facts : ∀ c ∈ hexClassChars,
    Char.toLower (Char.toUpper (Char.toLower c)) = Char.toLower c ∧
    Char.toLower (Char.toLower c) = Char.toLower c ∧
    isHexDigitChar (Char.toLower c) = true ∧
    (decide ('A' ≤ Char.toLower c) && decide (Char.toLower c ≤ 'F')) = false := by
  decide

/-- A hex digit is one of the 22 class characters. -/
theorem isHexDigitChar_mem {c : Char} (h : isHexDigitChar c = true) :
    c ∈ hexClassChars := by
  unfold isHexDigitChar at h
  simpa using h

/-- Decomposition of a well-formed address string: a `0x` head and a
40-character hex body. -/
theorem wellFormedAddress_decomp {s : String} (h : wellFormedAddress s = true) :
    ∃ body, s.data = '0' :: 'x' :: body ∧ body.length = 40 ∧
      ∀ c ∈ body, isHexDigitChar c = true := by
  unfold wellFormedAddress at h
  rcases hdata : s.data with _ | ⟨c1, _ | ⟨c2, body⟩⟩ <;> rw [hdata] at h
  · simp at h
  · simp at h
  · rw [Bool.and_eq_true] at h
    obtain ⟨h1, h2⟩ := h
    have hc : c1 = '0' ∧ c2 = 'x' := by
      have := of_decide_eq_true (by simpa using h1)
      simpa using this
    unfold is40Hex at h2
    rw [Bool.and_eq_true] at h2
    refine ⟨body, by rw [hc.1, hc.2], ?_, ?_⟩
    · simpa using h2.1
    · exact fun c hc2 => List.all_eq_true.mp h2.2 c hc2

/-- Lowering the checksummed address recovers the lowered input: the
checksum only flips letter case. -/
theorem lowerChars_getChecksumAddress {body : List Char}
    (hhex : ∀ c ∈ body, isHexDigitChar c = true) :
    lowerChars (getChecksumAddress ('0' :: 'x' :: body)) =
      '0' :: 'x' :: lowerChars body := by
  have h0 : Char.toLower '0' = '0' := by decide
  have hx : Char.toLower 'x' = 'x' := by decide
  unfold getChecksumAddress lowerChars
  rw [List.map_cons, List.map_cons, h0, hx, List.map_map]
  show '0' :: 'x' :: ((body.map Char.toLower).enum.map _) = '0' :: 'x' :: body.map Char.toLower
  congr 2
  conv_rhs => rw [← List.enum_map_snd (body.map Char.toLower)]
  apply List.map_congr_left
  intro p hp
  obtain ⟨c, hc, hpc⟩ := List.mem_map.mp (List.snd_mem_of_mem_enum hp)
  have hfacts := hexChar_facts c (isHexDigitChar_mem (hhex c hc))
  show Char.toLower (checksumChar _ p.2) = p.2
  unfold checksumChar
  by_cases hnib : 8 ≤ checksumNibble
      (keccak256 ((('0' :: 'x' :: body).drop 2).map Char.toLower |>.map Char.toNat)) p.1
  · rw [if_pos hnib, ← hpc, hfacts.1]
  · rw [if_neg hnib, ← hpc, hfacts.2.1]

/-- The checksummed form depends only on the lowered address body. -/
theorem getChecksumAddress_lower_inv {full1 full2 : List Char}
    (h : lowerChars (full1.drop 2) = lowerChars (full2.drop 2)) :
    getChecksumAddress full1 = getChecksumAddress full2 := by
  unfold getChecksumAddress
  rw [h]

/-- On a well-formed `0x` address, `getAddress` reduces to the checksum
computation guarded by the mixed-case validation. -/
theorem getAddress_wf {s : String} (h : wellFormedAddress s = true) :
    getAddress s =
      if isMixedCase s.data && getChecksumAddress s.data != s.data
        then .error "bad address checksum"
        else .ok (String.mk (getChecksumAddress s.data)) := by
  unfold wellFormedAddress at h
  rw [Bool.and_eq_true] at h
  unfold getAddress
  rw [if_pos (by rw [h.1, h.2]; rfl), if_pos h.1]

/-- A well-formed address accepted by `getAddress` normalizes to its
checksummed form. -/
theorem getAddress_accepted {s : String} (h : wellFormedAddress s = true)
    (hacc : ∃ x, getAddress s = .ok x) :
    getAddress s = .ok (String.mk (getChecksumAddress s.data)) := by
  obtain ⟨x, hx⟩ := hacc
  rw [getAddress_wf h] at hx ⊢
  cases hcond : (isMixedCase s.data && getChecksumAddress s.data != s.data) with
  | true => rw [hcond] at hx; simp at hx
  | false => rfl

/-- Lowering distributes over the `0x` head of a well-formed address. -/
theorem lowerChars_cons_0x (body : List Char) :
    lowerChars ('0' :: 'x' :: body) = '0' :: 'x' :: lowerChars body := by
  unfold lowerChars
  rw [List.map_cons, List.map_cons,
    show Char.toLower '0' = '0' from by decide,
    show Char.toLower 'x' = 'x' from by decide]

/-- C10 (amended): for well-formed addresses accepted by the checksum
validation of `getAddress` (in particular every address whose hex letters
are in a single case), `isSameAddress` returns `true` exactly when the two
addresses are equal ignoring case, and comparing an accepted address with
its own lowercasing returns `true`. -/
theorem isSameAddress_case_insensitive (a b : String)
    (ha : wellFormedAddress a = true) (hb : wellFormedAddress b = true)
    (hacca : ∃ x, getAddress a = .ok x) (haccb : ∃ y, getAddress b = .ok y) :
    (isSameAddress a b = .ok true ↔ strToLower a = strToLower b) ∧
    isSameAddress a (strToLower a) = .ok true := by
  obtain ⟨bodyA, hda, hlenA, hhexA⟩ := wellFormedAddress_decomp ha
  obtain ⟨bodyB, hdb, hlenB, hhexB⟩ := wellFormedAddress_decomp hb
  have hga := getAddress_accepted ha hacca
  have hgb := getAddress_accepted hb haccb
  have hlowA : lowerChars a.data = '0' :: 'x' :: lowerChars bodyA := by
    rw [hda, lowerChars_cons_0x]
  have hlowB : lowerChars b.data = '0' :: 'x' :: lowerChars bodyB := by
    rw [hdb, lowerChars_cons_0x]
  have hckA : lowerChars (getChecksumAddress a.data) = '0' :: 'x' :: lowerChars bodyA := by
    rw [hda, lowerChars_getChecksumAddress hhexA]
  have hckB : lowerChars (getChecksumAddress b.data) = '0' :: 'x' :: lowerChars bodyB := by
    rw [hdb, lowerChars_getChecksumAddress hhexB]
  constructor
  · unfold isSameAddress
    rw [hga, hgb]
    dsimp only
    constructor
    · intro h
      injection h with h
      have hmk : String.mk (getChecksumAddress a.data) =
          String.mk (getChecksumAddress b.data) := eq_of_beq h
      injection hmk with hck
      have hlow := congrArg lowerChars hck
      rw [hckA, hckB] at hlow
      unfold strToLower
      rw [hlowA, hlowB]
      injection hlow with h1 hlow
      injection hlow with h2 hlow
      rw [hlow]
    · intro h
      unfold strToLower at h
      injection h with h
      have hdropeq : lowerChars (a.data.drop 2) = lowerChars (b.data.drop 2) := by
        unfold lowerChars
        rw [List.map_drop, List.map_drop]
        unfold lowerChars at h
        rw [h]
      rw [getChecksumAddress_lower_inv hdropeq]
      simp
  · have hd2 : (strToLower a).data = '0' :: 'x' :: lowerChars bodyA := by
      unfold strToLower
      show lowerChars a.data = _
      exact hlowA
    have hwf2 : wellFormedAddress (strToLower a) = true := by
      unfold wellFormedAddress
      rw [hd2, Bool.and_eq_true]
      constructor
      · rfl
      · show is40Hex (lowerChars bodyA) = true
        unfold is40Hex
        rw [Bool.and_eq_true]
        constructor
        · show ((lowerChars bodyA).length == 40) = true
          unfold lowerChars
          rw [List.length_map, hlenA]
          rfl
        · rw [List.all_eq_true]
          intro c hc
          obtain ⟨c0, hc0, rfl⟩ := List.mem_map.mp hc
          exact (hexChar_facts c0 (isHexDigitChar_mem (hhexA c0 hc0))).2.2.1
    have hmix2 : isMixedCase (strToLower a).data = false := by
      rw [hd2]
      unfold isMixedCase
      have hup : ∀ c ∈ '0' :: 'x' :: lowerChars bodyA,
          ¬(decide ('A' ≤ c) && decide (c ≤ 'F')) = true := by
        intro c hc
        rcases List.mem_cons.mp hc with rfl | hc
        · decide
        rcases List.mem_cons.mp hc with rfl | hc
        · decide
        obtain ⟨c0, hc0, rfl⟩ := List.mem_map.mp hc
        rw [(hexChar_facts c0 (isHexDigitChar_mem (hhexA c0 hc0))).2.2.2]
        decide
      rw [List.any_eq_false.mpr hup, Bool.false_and]
    have hacc2 : getAddress (strToLower a) =
        .ok (String.mk (getChecksumAddress (strToLower a).data)) := by
      rw [getAddress_wf hwf2, hmix2, Bool.false_and]
      rfl
    have hCeq : getChecksumAddress (strToLower a).data = getChecksumAddress a.data := by
      apply getChecksumAddress_lower_inv
      rw [hd2, hda]
      show lowerChars (lowerChars bodyA) = lowerChars bodyA
      unfold lowerChars
      rw [List.map_map]
      apply List.map_congr_left
      intro c hc
      exact (hexChar_facts c (isHexDigitChar_mem (hhexA c hc))).2.1
    unfold isSameAddress
    rw [hga, hacc2, hCeq]
    simp

set_option maxRecDepth 40000

/-- The embedded `getAddress` reproduces the canonical EIP-55 checksum test
vector, validating the keccak-256 embedding. -/
theorem getAddress_eip55_vector :
    getAddress "0x5aaeb6053f3e94c9b9a09f33669435e7ef1beaed" =
      .ok "0x5aAeb6053F3E94C9b9A09f33669435E7Ef1BeAed" := by rfl

/-- Counterexample for C10 as stated: the well-formed address obtained from
the EIP-55 vector by lowercasing its third character is mixed-case with an
invalid checksum, so `isSameAddress` with its own lowercasing throws the
bad-checksum error instead of returning `true`. -/
theorem isSameAddress_mixed_case_counterexample :
    wellFormedAddress "0x5Aaeb6053F3E94C9b9A09f33669435E7Ef1BeAed" = true ∧
    strToLower "0x5Aaeb6053F3E94C9b9A09f33669435E7Ef1BeAed" =
      "0x5aaeb6053f3e94c9b9a09f33669435e7ef1beaed" ∧
    isSameAddress "0x5Aaeb6053F3E94C9b9A09f33669435E7Ef1BeAed"
        "0x5aaeb6053f3e94c9b9a09f33669435e7ef1beaed" =
      .error "bad address checksum" :=
  ⟨by decide, by decide, by rfl⟩

/-- Witness for C10 at two concrete single-case well-formed addresses with
equal lowercasings. -/
theorem isSameAddress_case_insensitive_witness :
    (isSameAddress "0xABCDEF0123456789ABCDEF0123456789ABCDEF01"
        "0xabcdef0123456789abcdef0123456789abcdef01" = .ok true ↔
      strToLower "0xABCDEF0123456789ABCDEF0123456789ABCDEF01" =
        strToLower "0xabcdef0123456789abcdef0123456789abcdef01") ∧
    isSameAddress "0xABCDEF0123456789ABCDEF0123456789ABCDEF01"
        (strToLower "0xABCDEF0123456789ABCDEF0123456789ABCDEF01") = .ok true :=
  isSameAddress_case_insensitive
    "0xABCDEF0123456789ABCDEF0123456789ABCDEF01"
    "0xabcdef0123456789abcdef0123456789abcdef01"
    (by decide) (by decide)
    ⟨"0xabCDeF0123456789AbcdEf0123456789aBCDEF01", by rfl⟩
    ⟨"0xabCDeF0123456789AbcdEf0123456789aBCDEF01", by rfl⟩
